import Mathlib

/-!
Verification of the Senforsce/sparql client library (repo.go, sparql.go):
a shallow embedding of the SPARQL JSON results data model, RDF term
materialization, repository construction with functional options, the
HTTP error-reporting branches, and the binding lookup helpers, together
with theorems about them.
-/

set_option maxHeartbeats 1000000

namespace SparqlSpec

/-- One JSON-encoded SPARQL result cell, struct `Binding` in repo.go: a term
kind tag (field `Type`), a lexical value, a language tag (JSON key "xml:lang")
and a datatype IRI string. -/
structure Binding where
  type : String
  value : String
  lang : String
  dataType : String
deriving Repr, DecidableEq

/-- Go zero value of `Binding`, produced by the map read `b[v]` in repo.go
when the variable `v` is absent from a solution map. -/
def zeroBinding : Binding := ⟨"", "", "", ""⟩

/-- Materialized RDF term, interface `rdf.Term` of github.com/knakk/rdf,
restricted to the four constructors this library produces: blank node, IRI,
language-tagged literal, typed literal. -/
inductive Term where
  | blank (label : String)
  | iri (value : String)
  | langLiteral (value lang : String)
  | typedLiteral (value dataType : String)
deriving Repr, DecidableEq

/-- Validity oracles for the fallible constructors of the external
github.com/knakk/rdf package, whose source is not part of this repository:
which strings are syntactically valid IRIs and which are valid blank node
labels. Every theorem below holds for every oracle. -/
structure RdfModel where
  validIRI : String → Bool
  validBlank : String → Bool

/-- Modelled from the spec: `rdf.NewIRI` of the external knakk/rdf package
fails exactly when the value is not a syntactically valid IRI. -/
def NewIRI (M : RdfModel) (s : String) : Except String String :=
  if M.validIRI s then .ok s else .error "invalid IRI"

/-- Modelled from the spec: `rdf.NewBlank` of the external knakk/rdf package
fails exactly when the label is invalid for a blank node identifier. -/
def NewBlank (M : RdfModel) (s : String) : Except String Term :=
  if M.validBlank s then .ok (.blank s) else .error "invalid blank node label"

/-- Modelled from the spec: `rdf.NewLangLiteral` of the external knakk/rdf
package; section 4.1 of the spec has a non-empty language tag always yield a
Language-tagged Literal. -/
def NewLangLiteral (v lang : String) : Except String Term :=
  .ok (.langLiteral v lang)

/-- The infallible constructor `rdf.NewTypedLiteral` of knakk/rdf. -/
def NewTypedLiteral (v dt : String) : Term := .typedLiteral v dt

/-- The IRI `xsdString` installed by the init function in sparql.go. -/
def xsdString : String := "http://www.w3.org/2001/XMLSchema#string"

/-- Function `termFromJSON` of repo.go: convert a SPARQL JSON result binding
into an RDF term, dispatching on the kind tag. The Go switch statement is
rendered as a chain of equality tests on the tag. -/
def termFromJSON (M : RdfModel) (b : Binding) : Except String Term :=
  if b.type = "bnode" then NewBlank M b.value
  else if b.type = "uri" then (NewIRI M b.value).map Term.iri
  else if b.type = "literal" then
    if b.lang ≠ "" then NewLangLiteral b.value b.lang
    else .ok (NewTypedLiteral b.value xsdString)
  else if b.type = "typed-literal" then
    match NewIRI M b.dataType with
    | .error e => .error e
    | .ok iri => .ok (NewTypedLiteral b.value iri)
  else .error "unknown term type"

/-- A trivial validity oracle, used to instantiate theorems at concrete
inputs. -/
def trivialModel : RdfModel := ⟨fun _ => true, fun _ => true⟩

/-- C1: for every Binding of kind "literal", termFromJSON returns a
Language-tagged Literal with the binding value and language tag when the tag
is non-empty, and a Typed Literal with datatype xsd:string and the binding
value when the tag is empty; in the empty-tag case it never fails. -/
theorem termFromJSON_literal (M : RdfModel) (b : Binding) (htype : b.type = "literal") :
    (b.lang ≠ "" → termFromJSON M b = .ok (Term.langLiteral b.value b.lang)) ∧
    (b.lang = "" → termFromJSON M b = .ok (Term.typedLiteral b.value xsdString)) := by
  constructor
  · intro hlang
    simp [termFromJSON, htype, hlang, NewLangLiteral]
  · intro hlang
    simp [termFromJSON, htype, hlang, NewTypedLiteral]

/-- Witness for C1 at two concrete literal bindings, one language-tagged and
one untagged. -/
theorem termFromJSON_literal_witness :
    termFromJSON trivialModel ⟨"literal", "hi", "en", ""⟩ =
      .ok (Term.langLiteral "hi" "en") ∧
    termFromJSON trivialModel ⟨"literal", "hello", "", ""⟩ =
      .ok (Term.typedLiteral "hello" xsdString) :=
  ⟨(termFromJSON_literal trivialModel ⟨"literal", "hi", "en", ""⟩ rfl).1 (by decide),
   (termFromJSON_literal trivialModel ⟨"literal", "hello", "", ""⟩ rfl).2 rfl⟩

/-- One solution row, a Go `map[string]Binding`, modelled as an association
list; well-formed rows (`WFRow`) have pairwise-distinct keys, as Go maps do. -/
abbrev Row := List (String × Binding)

/-- Go map read returning an optional value, the comma-ok form `v, ok := m[k]`. -/
def mapGet? {β : Type} : List (String × β) → String → Option β
  | [], _ => none
  | (k, v) :: rest, x => if k = x then some v else mapGet? rest x

/-- Go map read with zero value: `b[v]` in repo.go yields the zero Binding
when the variable is absent from the row. -/
def getB (row : Row) (v : String) : Binding := (mapGet? row v).getD zeroBinding

/-- The keys of an association list, in representation order. -/
def keys {β : Type} (m : List (String × β)) : List String := m.map Prod.fst

/-- Well-formedness of a row: its keys are pairwise distinct (guaranteed for
any Go map). -/
def WFRow (row : Row) : Prop := (keys row).Nodup

instance (row : Row) : Decidable (WFRow row) := by
  unfold WFRow; infer_instance

/-- Struct `header` of repo.go: the declared link and variable names. -/
structure Header where
  link : List String
  vars : List String
deriving Repr, DecidableEq

/-- Struct `results` (lowercase) of repo.go: the solution rows plus the
distinct and ordered flags. -/
structure ResultsBody where
  distinct : Bool
  ordered : Bool
  bindings : List Row
deriving Repr, DecidableEq

/-- Struct `Results` of repo.go: a parsed SPARQL JSON response. -/
structure Results where
  head : Header
  results : ResultsBody
deriving Repr, DecidableEq

/-- Go map write `rb[v] = append(rb[v], t)` on a `map[string][]rdf.Term`:
append to the existing entry, or create a singleton entry for a fresh key. -/
def addTerm : List (String × List Term) → String → Term → List (String × List Term)
  | [], v, t => [(v, [t])]
  | (k, ts) :: rest, v, t =>
      if k = v then (k, ts ++ [t]) :: rest else (k, ts) :: addTerm rest v t

/-- Inner loop of `Bindings` in repo.go for one declared variable: scan all
rows in order and append each successfully materialized term. -/
def bindingsVar (M : RdfModel) (rows : List Row) (v : String)
    (m : List (String × List Term)) : List (String × List Term) :=
  rows.foldl (fun m row =>
    match termFromJSON M (getB row v) with
    | .ok t => addTerm m v t
    | .error _ => m) m

/-- Method `Bindings` of repo.go on `*Results`: for each declared variable in
declaration order, collect the materialized terms over all rows. -/
def Bindings (M : RdfModel) (r : Results) : List (String × List Term) :=
  r.head.vars.foldl (fun m v => bindingsVar M r.results.bindings v m) []

/-- The materialized terms of one variable over the rows, in row order:
exactly the bindings whose materialization succeeds. -/
def mats (M : RdfModel) (rows : List Row) (v : String) : List Term :=
  rows.filterMap (fun row => (termFromJSON M (getB row v)).toOption)

/-- Go map write `solution[k] = term` on a `map[string]rdf.Term`: overwrite
the existing entry or create one for a fresh key. -/
def setTerm : List (String × Term) → String → Term → List (String × Term)
  | [], k, t => [(k, t)]
  | (k', t') :: rest, k, t =>
      if k' = k then (k', t) :: rest else (k', t') :: setTerm rest k t

/-- Inner loop of `Solutions` in repo.go: materialize every binding of one
row, keeping exactly the successes. -/
def solutionOfRow (M : RdfModel) (row : Row) : List (String × Term) :=
  row.foldl (fun m kv =>
    match termFromJSON M kv.2 with
    | .ok t => setTerm m kv.1 t
    | .error _ => m) []

/-- Method `Solutions` of repo.go on `*Results`: one materialized mapping per
solution row, in row order. -/
def Solutions (M : RdfModel) (r : Results) : List (List (String × Term)) :=
  r.results.bindings.map (solutionOfRow M)

/-- A key absent from the keys of an association list looks up to none. -/
theorem mapGet?_eq_none {β : Type} {m : List (String × β)} {k : String}
    (h : k ∉ keys m) : mapGet? m k = none := by
  induction m with
  | nil => rfl
  | cons p rest ih =>
    obtain ⟨k', v⟩ := p
    simp only [keys, List.map_cons, List.mem_cons, not_or] at h
    have hne : ¬k' = k := fun hk => h.1 hk.symm
    simp only [mapGet?, if_neg hne]
    exact ih (by simpa [keys] using h.2)

/-- Writing a fresh key with setTerm appends the entry at the end. -/
theorem setTerm_fresh {m : List (String × Term)} {k : String} {t : Term}
    (h : k ∉ keys m) : setTerm m k t = m ++ [(k, t)] := by
  induction m with
  | nil => rfl
  | cons p rest ih =>
    obtain ⟨k', t'⟩ := p
    simp only [keys, List.map_cons, List.mem_cons, not_or] at h
    have hne : ¬k' = k := fun hk => h.1 hk.symm
    simp only [setTerm, if_neg hne, List.cons_append]
    rw [ih (by simpa [keys] using h.2)]

/-- The per-binding success projection describing one Solutions row: the key
paired with its term when materialization succeeds, nothing otherwise. -/
def matRow (M : RdfModel) (kv : String × Binding) : Option (String × Term) :=
  match termFromJSON M kv.2 with
  | .ok t => some (kv.1, t)
  | .error _ => none

/-- The inner fold of Solutions, started from an accumulator whose keys avoid
the row, appends exactly the successful materializations in row order. -/
theorem solutionOfRow_fold (M : RdfModel) (row : Row) :
    ∀ m : List (String × Term), (∀ kv ∈ row, kv.1 ∉ keys m) → WFRow row →
    row.foldl (fun m kv =>
        match termFromJSON M kv.2 with
        | .ok t => setTerm m kv.1 t
        | .error _ => m) m
      = m ++ row.filterMap (matRow M) := by
  induction row with
  | nil => intro m _ _; simp
  | cons kv rest ih =>
    intro m hdisj hrow
    obtain ⟨k, b⟩ := kv
    have hk : k ∉ keys m := hdisj (k, b) (List.mem_cons_self _ _)
    have hrow' : WFRow ((k, b) :: rest) := hrow
    rw [WFRow, keys, List.map_cons, List.nodup_cons] at hrow'
    cases htf : termFromJSON M b with
    | ok t =>
      simp only [List.foldl_cons, List.filterMap_cons, htf, matRow]
      rw [setTerm_fresh hk]
      rw [ih (m ++ [(k, t)]) ?_ hrow'.2]
      · simp
      · intro kv' hkv'
        simp only [keys, List.map_append, List.mem_append, List.map_cons,
          List.map_nil, List.mem_singleton, not_or]
        refine ⟨fun hmem => hdisj kv' (List.mem_cons_of_mem _ hkv') (by simpa [keys] using hmem), ?_⟩
        intro hkk
        apply hrow'.1
        show k ∈ List.map Prod.fst rest
        rw [← hkk]
        exact List.mem_map_of_mem Prod.fst hkv'
    | error e =>
      simp only [List.foldl_cons, List.filterMap_cons, htf, matRow]
      exact ih m (fun kv' hkv' => hdisj kv' (List.mem_cons_of_mem _ hkv')) hrow'.2

/-- A well-formed Solutions row is exactly the row filtered to its
successfully materialized bindings, in row order. -/
theorem solutionOfRow_eq (M : RdfModel) (row : Row) (hrow : WFRow row) :
    solutionOfRow M row = row.filterMap (matRow M) := by
  simpa using solutionOfRow_fold M row [] (by simp [keys]) hrow

/-- Keys of the materialized row projection come from the row itself. -/
theorem mem_keys_filterMap_matRow {M : RdfModel} {row : Row} {k : String}
    (h : k ∈ keys (row.filterMap (matRow M))) : k ∈ keys row := by
  simp only [keys, List.mem_map, List.mem_filterMap] at h ⊢
  obtain ⟨p, ⟨kv, hkv, hmat⟩, hk⟩ := h
  refine ⟨kv, hkv, ?_⟩
  unfold matRow at hmat
  split at hmat
  · cases hmat; simpa using hk
  · cases hmat

/-- Lookup in a well-formed materialized row: defined exactly on the keys
whose binding materializes, yielding the materialized term. -/
theorem mapGet?_solutionOfRow (M : RdfModel) (row : Row) (hrow : WFRow row)
    (k : String) :
    mapGet? (solutionOfRow M row) k
      = (mapGet? row k).bind (fun b => (termFromJSON M b).toOption) := by
  rw [solutionOfRow_eq M row hrow]
  induction row with
  | nil => rfl
  | cons kv rest ih =>
    obtain ⟨k', b⟩ := kv
    have hrow' : WFRow ((k', b) :: rest) := hrow
    rw [WFRow, keys, List.map_cons, List.nodup_cons] at hrow'
    by_cases hk : k' = k
    · subst hk
      cases htf : termFromJSON M b with
      | ok t =>
        simp [List.filterMap_cons, matRow, htf, mapGet?, Except.toOption]
      | error e =>
        have hnone : mapGet? (List.filterMap (matRow M) rest) k' = none := by
          apply mapGet?_eq_none
          intro hmem
          exact hrow'.1 (by simpa [keys] using mem_keys_filterMap_matRow (M := M) hmem)
        simp [List.filterMap_cons, matRow, htf, mapGet?, hnone, Except.toOption]
    · cases htf : termFromJSON M b with
      | ok t =>
        simp only [List.filterMap_cons, matRow, htf, mapGet?, if_neg hk]
        exact ih hrow'.2
      | error e =>
        simp only [List.filterMap_cons, matRow, htf, mapGet?, if_neg hk]
        exact ih hrow'.2

/-- Appending a term under a fresh key creates a singleton entry at the end. -/
theorem addTerm_fresh {m : List (String × List Term)} {v : String} {t : Term}
    (h : v ∉ keys m) : addTerm m v t = m ++ [(v, [t])] := by
  induction m with
  | nil => rfl
  | cons p rest ih =>
    obtain ⟨k, ts⟩ := p
    simp only [keys, List.map_cons, List.mem_cons, not_or] at h
    have hne : ¬k = v := fun hk => h.1 hk.symm
    simp only [addTerm, if_neg hne, List.cons_append]
    rw [ih (by simpa [keys] using h.2)]

/-- Appending a term under a key held only by the final entry extends that
entry. -/
theorem addTerm_last {m : List (String × List Term)} {v : String}
    {ts : List Term} {t : Term} (h : v ∉ keys m) :
    addTerm (m ++ [(v, ts)]) v t = m ++ [(v, ts ++ [t])] := by
  induction m with
  | nil => simp [addTerm]
  | cons p rest ih =>
    obtain ⟨k, ls⟩ := p
    simp only [keys, List.map_cons, List.mem_cons, not_or] at h
    have hne : ¬k = v := fun hk => h.1 hk.symm
    simp only [List.cons_append, addTerm, if_neg hne]
    show (k, ls) :: addTerm (rest ++ [(v, ts)]) v t = (k, ls) :: (rest ++ [(v, ts ++ [t])])
    rw [ih (by simpa [keys] using h.2)]

/-- Repeated addTerm under one key, the shape of the Bindings inner loop. -/
def addTerms (m : List (String × List Term)) (v : String) (ts : List Term) :
    List (String × List Term) :=
  ts.foldl (fun m t => addTerm m v t) m

/-- The Bindings inner loop is addTerms of the materialized terms of the
variable. -/
theorem bindingsVar_eq (M : RdfModel) (rows : List Row) (v : String) :
    ∀ m, bindingsVar M rows v m = addTerms m v (mats M rows v) := by
  induction rows with
  | nil => intro m; rfl
  | cons row rest ih =>
    intro m
    unfold bindingsVar
    rw [List.foldl_cons]
    cases htf : termFromJSON M (getB row v) with
    | ok t =>
      simp only [htf]
      unfold mats
      simp only [List.filterMap_cons, htf]
      exact ih (addTerm m v t)
    | error e =>
      simp only [htf]
      unfold mats
      simp only [List.filterMap_cons, htf]
      exact ih m

/-- Folding further terms onto a last-position entry with a fresh key extends
that entry in place. -/
theorem addTerms_last {m : List (String × List Term)} {v : String}
    (h : v ∉ keys m) :
    ∀ ts acc, addTerms (m ++ [(v, acc)]) v ts = m ++ [(v, acc ++ ts)] := by
  intro ts
  induction ts with
  | nil => intro acc; simp [addTerms]
  | cons t ts' ih =>
    intro acc
    unfold addTerms
    simp only [List.foldl_cons]
    rw [addTerm_last h]
    have := ih (acc ++ [t])
    unfold addTerms at this
    rw [this]
    simp

/-- addTerms under a fresh key: no change for no terms, otherwise one new
entry at the end holding all the terms in order. -/
theorem addTerms_fresh {m : List (String × List Term)} {v : String}
    {ts : List Term} (h : v ∉ keys m) :
    addTerms m v ts = if ts.isEmpty then m else m ++ [(v, ts)] := by
  cases ts with
  | nil => rfl
  | cons t ts' =>
    simp only [List.isEmpty_cons, Bool.false_eq_true, if_false]
    unfold addTerms
    simp only [List.foldl_cons]
    rw [addTerm_fresh h]
    have := addTerms_last h ts' [t]
    unfold addTerms at this
    rw [this]
    simp

/-- The per-variable entry constructor used in the Bindings normal form. -/
def varEntry (M : RdfModel) (rows : List Row) (v : String) :
    Option (String × List Term) :=
  if (mats M rows v).isEmpty then none else some (v, mats M rows v)

/-- The outer fold of Bindings, over distinct variables fresh for the
accumulator, appends one entry per variable with materialized terms. -/
theorem bindings_fold_norm (M : RdfModel) (rows : List Row) :
    ∀ (vars : List String) (m : List (String × List Term)), vars.Nodup →
    (∀ v ∈ vars, v ∉ keys m) →
    vars.foldl (fun m v => bindingsVar M rows v m) m
      = m ++ vars.filterMap (varEntry M rows) := by
  intro vars
  induction vars with
  | nil => intro m _ _; simp
  | cons v rest ih =>
    intro m hnd hfresh
    rw [List.nodup_cons] at hnd
    simp only [List.foldl_cons, List.filterMap_cons]
    rw [bindingsVar_eq, addTerms_fresh (hfresh v (List.mem_cons_self _ _))]
    by_cases hemp : (mats M rows v).isEmpty
    · have hve : varEntry M rows v = none := by
        unfold varEntry; rw [if_pos hemp]
      rw [if_pos hemp]
      simp only [hve]
      exact ih m hnd.2 fun u hu => hfresh u (List.mem_cons_of_mem _ hu)
    · have hve : varEntry M rows v = some (v, mats M rows v) := by
        unfold varEntry; rw [if_neg hemp]
      rw [if_neg hemp]
      simp only [hve]
      rw [ih (m ++ [(v, mats M rows v)]) hnd.2 ?_]
      · simp
      · intro u hu
        simp only [keys, List.map_append, List.mem_append, List.map_cons,
          List.map_nil, List.mem_singleton, not_or]
        refine ⟨fun hm => hfresh u (List.mem_cons_of_mem _ hu) (by simpa [keys] using hm), ?_⟩
        intro huv
        exact hnd.1 (huv ▸ hu)

/-- Normal form of Bindings for a result whose declared variables are
distinct: one entry per declared variable with at least one materialized
term, in declaration order, holding its materialized terms in row order. -/
theorem Bindings_norm (M : RdfModel) (r : Results) (hnd : r.head.vars.Nodup) :
    Bindings M r = r.head.vars.filterMap (varEntry M r.results.bindings) := by
  simpa using bindings_fold_norm M r.results.bindings r.head.vars [] hnd (by simp [keys])

/-- Keys of the Bindings normal form come from the variable list. -/
theorem mem_keys_varFilterMap {M : RdfModel} {rows : List Row}
    {vars : List String} {k : String}
    (h : k ∈ keys (vars.filterMap (varEntry M rows))) : k ∈ vars := by
  simp only [keys, List.mem_map, List.mem_filterMap] at h
  obtain ⟨p, ⟨u, hu, hent⟩, hk⟩ := h
  unfold varEntry at hent
  split at hent
  · cases hent
  · cases hent
    exact hk ▸ hu

/-- Lookup of a declared variable in Bindings: none when no binding for it
materializes, otherwise exactly the materialized terms in row order. -/
theorem mapGet?_Bindings (M : RdfModel) (r : Results) (hnd : r.head.vars.Nodup)
    (v : String) (hv : v ∈ r.head.vars) :
    mapGet? (Bindings M r) v
      = if (mats M r.results.bindings v).isEmpty then none
        else some (mats M r.results.bindings v) := by
  rw [Bindings_norm M r hnd]
  revert hnd hv
  generalize r.head.vars = vars
  induction vars with
  | nil => intro _ hv; cases hv
  | cons u rest ih =>
    intro hnd hv
    rw [List.nodup_cons] at hnd
    rcases List.mem_cons.mp hv with rfl | hv'
    · by_cases hemp : (mats M r.results.bindings v).isEmpty
      · have hve : varEntry M r.results.bindings v = none := by
          unfold varEntry; rw [if_pos hemp]
        rw [if_pos hemp]
        simp only [List.filterMap_cons, hve]
        exact mapGet?_eq_none fun hm => hnd.1 (mem_keys_varFilterMap hm)
      · have hve : varEntry M r.results.bindings v
            = some (v, mats M r.results.bindings v) := by
          unfold varEntry; rw [if_neg hemp]
        rw [if_neg hemp]
        simp only [List.filterMap_cons, hve]
        simp [mapGet?]
    · have hvu : ¬u = v := fun h => hnd.1 (h ▸ hv')
      by_cases hemp : (mats M r.results.bindings u).isEmpty
      · have hve : varEntry M r.results.bindings u = none := by
          unfold varEntry; rw [if_pos hemp]
        simp only [List.filterMap_cons, hve]
        exact ih hnd.2 hv'
      · have hve : varEntry M r.results.bindings u
            = some (u, mats M r.results.bindings u) := by
          unfold varEntry; rw [if_neg hemp]
        simp only [List.filterMap_cons, hve]
        simp only [mapGet?, if_neg hvu]
        exact ih hnd.2 hv'

/-- Success of an Except computation, read through toOption. -/
theorem except_toOption_eq_some {ε α : Type} {x : Except ε α} {t : α} :
    x.toOption = some t ↔ x = .ok t := by
  cases x <;> simp [Except.toOption]

/-- Example row holding one binding of unknown kind and one valid IRI
binding. -/
def exRow : Row :=
  [("x", ⟨"foo", "v", "", ""⟩), ("y", ⟨"uri", "http://example.org/x", "", ""⟩)]

/-- Example query result over exRow with two declared variables. -/
def exResults : Results := ⟨⟨[], ["x", "y"]⟩, ⟨false, false, [exRow]⟩⟩

/-- C2: a binding of unknown kind fails individual materialization with the
unknown-term-kind error, yet Solutions and Bindings are total and simply omit
each failing binding: a key is present in a materialized row exactly when its
binding materializes, and each Bindings entry holds exactly the successfully
materialized terms of its variable. -/
theorem unknownKind_strict_bulk_lenient :
    (∀ (M : RdfModel) (b : Binding), b.type ≠ "uri" → b.type ≠ "literal" →
      b.type ≠ "typed-literal" → b.type ≠ "bnode" →
      termFromJSON M b = .error "unknown term type") ∧
    (∀ (M : RdfModel) (r : Results),
      Solutions M r = r.results.bindings.map (solutionOfRow M)) ∧
    (∀ (M : RdfModel) (row : Row), WFRow row → ∀ (k : String) (t : Term),
      mapGet? (solutionOfRow M row) k = some t ↔
        ∃ b, mapGet? row k = some b ∧ termFromJSON M b = .ok t) ∧
    (∀ (M : RdfModel) (r : Results), r.head.vars.Nodup →
      ∀ v ∈ r.head.vars,
        mapGet? (Bindings M r) v
          = if (mats M r.results.bindings v).isEmpty then none
            else some (mats M r.results.bindings v)) := by
  refine ⟨?_, fun M r => rfl, ?_, ?_⟩
  · intro M b hu hl htl hb
    simp [termFromJSON, hu, hl, htl, hb]
  · intro M row hrow k t
    rw [mapGet?_solutionOfRow M row hrow k]
    cases hg : mapGet? row k with
    | none => simp
    | some b => simp [except_toOption_eq_some]
  · intro M r hnd v hv
    exact mapGet?_Bindings M r hnd v hv

/-- Witness for C2 on a concrete result mixing an unknown-kind binding with a
valid one. -/
theorem unknownKind_strict_bulk_lenient_witness :
    termFromJSON trivialModel ⟨"foo", "v", "", ""⟩ = .error "unknown term type" ∧
    (mapGet? (solutionOfRow trivialModel exRow) "y"
        = some (Term.iri "http://example.org/x") ↔
      ∃ b, mapGet? exRow "y" = some b ∧
        termFromJSON trivialModel b = .ok (Term.iri "http://example.org/x")) ∧
    mapGet? (Bindings trivialModel exResults) "x"
      = if (mats trivialModel exResults.results.bindings "x").isEmpty then none
        else some (mats trivialModel exResults.results.bindings "x") :=
  ⟨unknownKind_strict_bulk_lenient.1 trivialModel ⟨"foo", "v", "", ""⟩
      (by decide) (by decide) (by decide) (by decide),
   unknownKind_strict_bulk_lenient.2.2.1 trivialModel exRow (by decide) "y"
      (Term.iri "http://example.org/x"),
   unknownKind_strict_bulk_lenient.2.2.2 trivialModel exResults (by decide) "x"
      (by decide)⟩

/-- C3: Solutions emits exactly one output mapping per solution row, in the
same order as the rows appear in the result; every row is emitted, including
rows in which some bindings fail to materialize. -/
theorem solutions_one_per_row (M : RdfModel) (r : Results) :
    (Solutions M r).length = r.results.bindings.length ∧
    ∀ i : Nat, (Solutions M r)[i]? = (r.results.bindings[i]?).map (solutionOfRow M) := by
  refine ⟨by simp [Solutions], fun i => by simp [Solutions]⟩

/-- C4: for a result with distinct declared variables, Bindings has at most
one entry per declared variable, and each entry holds at most one term per
solution row. -/
theorem bindings_bounds (M : RdfModel) (r : Results) (hnd : r.head.vars.Nodup) :
    (Bindings M r).length ≤ r.head.vars.length ∧
    ∀ p ∈ Bindings M r, p.2.length ≤ r.results.bindings.length := by
  rw [Bindings_norm M r hnd]
  constructor
  · exact List.length_filterMap_le _ _
  · intro p hp
    rw [List.mem_filterMap] at hp
    obtain ⟨v, hv, hent⟩ := hp
    unfold varEntry at hent
    split at hent
    · cases hent
    · cases hent
      simpa [mats] using
        List.length_filterMap_le
          (fun row => (termFromJSON M (getB row v)).toOption) r.results.bindings

/-- Witness for C4 on the concrete example result. -/
theorem bindings_bounds_witness :
    (Bindings trivialModel exResults).length ≤ exResults.head.vars.length ∧
    ("y", [Term.iri "http://example.org/x"]).2.length
      ≤ exResults.results.bindings.length :=
  ⟨(bindings_bounds trivialModel exResults (by decide)).1,
   (bindings_bounds trivialModel exResults (by decide)).2
      ("y", [Term.iri "http://example.org/x"]) (by decide)⟩

/-- State-passing form of the `Bindings` method of repo.go: the receiver is
threaded through and returned with the result. The Go method body only reads
the receiver - it allocates a fresh map and never assigns to the receiver or
its fields - so the returned receiver is the incoming one. -/
def BindingsS (M : RdfModel) (r : Results) :
    List (String × List Term) × Results :=
  (r.head.vars.foldl (fun m v => bindingsVar M r.results.bindings v m) [], r)

/-- State-passing form of the `Solutions` method of repo.go, likewise
read-only on the receiver. -/
def SolutionsS (M : RdfModel) (r : Results) :
    List (List (String × Term)) × Results :=
  (r.results.bindings.map (solutionOfRow M), r)

/-- C8: term materialization is a pure, repeatable, read-only projection:
each call leaves the query result unchanged, computes the same value as the
pure functions, and a second call on the returned state yields an equal
result. -/
theorem materialization_pure (M : RdfModel) (r : Results) :
    (BindingsS M r).2 = r ∧ (SolutionsS M r).2 = r ∧
    (BindingsS M r).1 = Bindings M r ∧ (SolutionsS M r).1 = Solutions M r ∧
    (BindingsS M ((BindingsS M r).2)).1 = (BindingsS M r).1 ∧
    (SolutionsS M ((SolutionsS M r).2)).1 = (SolutionsS M r).1 :=
  ⟨rfl, rfl, rfl, rfl, rfl, rfl⟩

/-- Go map write `toReturn[val] = append(toReturn[val], term)` on a
`map[string][]map[string]Binding`, including the create-when-missing branch
of sparql.go (which sets an empty slice and then appends). -/
def addRow : List (String × List Row) → String → Row → List (String × List Row)
  | [], v, row => [(v, [row])]
  | (k, rs) :: rest, v, row =>
      if k = v then (k, rs ++ [row]) :: rest else (k, rs) :: addRow rest v row

/-- Function `ListOfSubjects` of sparql.go: group rows by the value bound to
the variable "s", skipping rows without it. -/
def ListOfSubjects (results : List Row) : List (String × List Row) :=
  results.foldl (fun m term =>
    match mapGet? term "s" with
    | some val => addRow m val.value term
    | none => m) []

/-- Function `ListOf` of sparql.go: group rows by the value bound to the
given variable name, skipping rows without it. -/
def ListOf (results : List Row) (needle : String) : List (String × List Row) :=
  results.foldl (fun m term =>
    match mapGet? term needle with
    | some val => addRow m val.value term
    | none => m) []

/-- C9: the specialized subject grouping helper agrees with the generic one
applied to the variable name "s" on every input. -/
theorem listOfSubjects_eq_listOf (results : List Row) :
    ListOfSubjects results = ListOf results "s" := rfl

/-- Function `GetValue` of sparql.go: the value of the needle variable in the
first row, or the empty string. -/
def GetValue (needle : String) (haystack : List Row) : String :=
  match haystack with
  | [] => ""
  | term :: _ =>
      match mapGet? term needle with
      | some val => val.value
      | none => ""

/-- C10: GetValue is total and consults only the first row: empty input and
a first row without the needle give the empty string, otherwise the value of
the first row binding of the needle; the rows after the first never affect
the result. -/
theorem getValue_first_row (needle : String) :
    GetValue needle [] = "" ∧
    ∀ (row : Row) (rest : List Row),
      (mapGet? row needle = none → GetValue needle (row :: rest) = "") ∧
      (∀ b, mapGet? row needle = some b → GetValue needle (row :: rest) = b.value) ∧
      (∀ rest', GetValue needle (row :: rest) = GetValue needle (row :: rest')) := by
  refine ⟨rfl, fun row rest => ⟨?_, ?_, fun _ => rfl⟩⟩
  · intro h; simp [GetValue, h]
  · intro b h; simp [GetValue, h]

/-- Witness for C10 on a concrete two-row haystack. -/
theorem getValue_first_row_witness :
    GetValue "p" [] = "" ∧
    GetValue "q" [exRow, [("q", ⟨"literal", "later", "", ""⟩)]] = "" ∧
    GetValue "y" [exRow, [("q", ⟨"literal", "later", "", ""⟩)]]
      = "http://example.org/x" :=
  ⟨(getValue_first_row "p").1,
   ((getValue_first_row "q").2 exRow [[("q", ⟨"literal", "later", "", ""⟩)]]).1 rfl,
   ((getValue_first_row "y").2 exRow [[("q", ⟨"literal", "later", "", ""⟩)]]).2.1
      ⟨"uri", "http://example.org/x", "", ""⟩ rfl⟩

/-- JSON values, the shape the encoding/json decoder delivers. Numbers are
kept as integers, since no decoded field of this library is numeric. -/
inductive Json where
  | null
  | bool (b : Bool)
  | num (n : Int)
  | str (s : String)
  | arr (elems : List Json)
  | obj (fields : List (String × Json))

/-- Field access in a JSON object. -/
def getField (fields : List (String × Json)) (k : String) : Option Json :=
  mapGet? fields k

/-- Modelled from the spec: Go encoding/json decoding of a JSON value into a
string-typed struct field; null leaves the zero value, other kinds fail. -/
def decodeStr : Json → Except String String
  | .str s => .ok s
  | .null => .ok ""
  | _ => .error "cannot unmarshal value into field of type string"

/-- Modelled from the spec: Go encoding/json decoding into a bool field. -/
def decodeBool : Json → Except String Bool
  | .bool b => .ok b
  | .null => .ok false
  | _ => .error "cannot unmarshal value into field of type bool"

/-- String field of an object: Go leaves the zero value when absent. -/
def strField (fields : List (String × Json)) (k : String) : Except String String :=
  match getField fields k with
  | none => .ok ""
  | some j => decodeStr j

/-- Bool field of an object: Go leaves the zero value when absent. -/
def boolField (fields : List (String × Json)) (k : String) : Except String Bool :=
  match getField fields k with
  | none => .ok false
  | some j => decodeBool j

/-- Modelled from the spec: Go json decoding of one `Binding` struct of
repo.go, from the JSON keys "type", "value", "xml:lang" (the struct tag of
the Lang field) and "datatype". -/
def decodeBinding (j : Json) : Except String Binding :=
  match j with
  | .obj fs => do
      let t ← strField fs "type"
      let v ← strField fs "value"
      let l ← strField fs "xml:lang"
      let d ← strField fs "datatype"
      pure ⟨t, v, l, d⟩
  | .null => pure zeroBinding
  | _ => .error "cannot unmarshal value into Binding"

/-- Modelled from the spec: decode one solution row, a JSON object from
variable names to bindings. -/
def decodeRow (j : Json) : Except String Row :=
  match j with
  | .obj fs => fs.mapM fun kv => (decodeBinding kv.2).map fun b => (kv.1, b)
  | .null => pure []
  | _ => .error "cannot unmarshal value into map of Binding"

/-- Modelled from the spec: decode a JSON array of strings. -/
def decodeStrList (j : Json) : Except String (List String) :=
  match j with
  | .arr es => es.mapM decodeStr
  | .null => pure []
  | _ => .error "cannot unmarshal value into slice of string"

/-- Modelled from the spec: decode the bindings array of solution rows. -/
def decodeRowList (j : Json) : Except String (List Row) :=
  match j with
  | .arr es => es.mapM decodeRow
  | .null => pure []
  | _ => .error "cannot unmarshal value into slice of rows"

/-- Modelled from the spec: Go json decoding of the `header` struct of
repo.go; absent keys leave zero values. -/
def decodeHeader (j : Json) : Except String Header :=
  match j with
  | .obj fs => do
      let link ← match getField fs "link" with
        | none => pure []
        | some x => decodeStrList x
      let vars ← match getField fs "vars" with
        | none => pure []
        | some x => decodeStrList x
      pure ⟨link, vars⟩
  | .null => pure ⟨[], []⟩
  | _ => .error "cannot unmarshal value into header"

/-- Modelled from the spec: Go json decoding of the `results` struct of
repo.go; absent keys leave zero values. -/
def decodeResultsBody (j : Json) : Except String ResultsBody :=
  match j with
  | .obj fs => do
      let d ← boolField fs "distinct"
      let o ← boolField fs "ordered"
      let bs ← match getField fs "bindings" with
        | none => pure []
        | some x => decodeRowList x
      pure ⟨d, o, bs⟩
  | .null => pure ⟨false, false, []⟩
  | _ => .error "cannot unmarshal value into results"

/-- Modelled from the spec: Go json decoding of the `Results` struct of
repo.go; a document without the "head" and "results" keys decodes to the
zero-value result rather than failing. -/
def decodeResults (j : Json) : Except String Results :=
  match j with
  | .obj fs => do
      let h ← match getField fs "head" with
        | none => pure ⟨[], []⟩
        | some x => decodeHeader x
      let b ← match getField fs "results" with
        | none => pure ⟨false, false, []⟩
        | some x => decodeResultsBody x
      pure ⟨h, b⟩
  | .null => pure ⟨⟨[], []⟩, ⟨false, false, []⟩⟩
  | _ => .error "cannot unmarshal value into Results"

/-- Function `ParseJSON` of repo.go. Modelled from the spec: the byte-level
JSON lexer of encoding/json is external to this repository, so the input
stream is given as none when it is not well-formed JSON and as some value
holding its parsed form otherwise; a stream that is not well-formed JSON
fails with the decode error. -/
def ParseJSON : Option Json → Except String Results
  | none => .error "invalid JSON document"
  | some j => decodeResults j

/-- C5: ParseJSON fails with a decode error on every stream that is not
well-formed JSON, while the well-formed empty JSON object, which has neither
the head nor the results key, decodes without failure to a result with zero
declared variables and zero solution rows. -/
theorem parseJSON_tolerates_empty_object :
    ParseJSON none = .error "invalid JSON document" ∧
    ParseJSON (some (Json.obj [])) = .ok ⟨⟨[], []⟩, ⟨false, false, []⟩⟩ :=
  ⟨rfl, rfl⟩

/-- An RDF triple, as produced by the turtle decoder of knakk/rdf. -/
structure Triple where
  subj : Term
  pred : Term
  obj : Term
deriving Repr, DecidableEq

/-- The package-level message fragment `rb` of repo.go. -/
def rb : String := "Response body: \n"

/-- The package-level message fragment `readFailMsg` of repo.go. -/
def readFailMsg : String := "Failed to read response body"

/-- The white space test of Go, unicode.IsSpace, as used by strings.TrimSpace
in the non-200 branches of repo.go: the full Unicode White_Space set, namely
tab through carriage return, space, next line, no-break space, ogham space
mark, the en-quad family U+2000 to U+200A, line and paragraph separator,
narrow no-break space, medium mathematical space and ideographic space. -/
def isSpaceGo (c : Char) : Bool :=
  c = ' ' || c = '\t' || c = '\n' || c = Char.ofNat 11 || c = Char.ofNat 12 ||
    c = '\r' || c = Char.ofNat 0x85 || c = Char.ofNat 0xA0 ||
    c = Char.ofNat 0x1680 ||
    (0x2000 ≤ c.toNat && c.toNat ≤ 0x200A) ||
    c = Char.ofNat 0x2028 || c = Char.ofNat 0x2029 ||
    c = Char.ofNat 0x202F || c = Char.ofNat 0x205F || c = Char.ofNat 0x3000

/-- Go strings.TrimSpace on the character list of the string. -/
def trimSpace (s : String) : String :=
  ⟨((s.data.dropWhile isSpaceGo).reverse.dropWhile isSpaceGo).reverse⟩

/-- The message suffix built by the shared non-200 branch of Query, Update
and Construct in repo.go: the read-failure indicator when the body read
failed, the response-body fragment when the body does not trim to the empty
string, and nothing otherwise. -/
def bodyMsg (body : Except Unit String) : String :=
  match body with
  | .error _ => readFailMsg
  | .ok b => if trimSpace b ≠ "" then rb ++ b else ""

/-- Modelled from the spec: fmt.Errorf on the format string composed of
"<op>: SPARQL request failed: %s. " and the message suffix, with the status
line substituted for the single verb and the suffix carried verbatim. -/
def fmtRequestFailed (op status msg : String) : String :=
  op ++ ": SPARQL request failed: " ++ status ++ ". " ++ msg

/-- An HTTP response as the client code of repo.go observes it: status code,
status line, and the body read attempt, which is an error when io.ReadAll
fails. For the 200 paths, jsonBody carries the JSON parse of the body stream
as for ParseJSON, and turtleBody the outcome of the external turtle triple
decoder of knakk/rdf. -/
structure Response where
  statusCode : Nat
  status : String
  body : Except Unit String
  jsonBody : Option Json
  turtleBody : Except String (List Triple)

/-- Method `Query` of repo.go from the moment the HTTP response arrives: a
non-200 status yields the formatted request-failed error, 200 parses the
body as SPARQL JSON results. -/
def Query (resp : Response) : Except String Results :=
  if resp.statusCode ≠ 200 then
    .error (fmtRequestFailed "Query" resp.status (bodyMsg resp.body))
  else ParseJSON resp.jsonBody

/-- Method `Update` of repo.go: the error branch reuses the "Query" prefix
verbatim, as the source does; 200 returns the fixed OK token. -/
def Update (resp : Response) : Except String String :=
  if resp.statusCode ≠ 200 then
    .error (fmtRequestFailed "Query" resp.status (bodyMsg resp.body))
  else .ok "OK"

/-- Method `Construct` of repo.go: 200 streams the body through the turtle
decoder and returns all decoded triples or its parse error. -/
def Construct (resp : Response) : Except String (List Triple) :=
  if resp.statusCode ≠ 200 then
    .error (fmtRequestFailed "Construct" resp.status (bodyMsg resp.body))
  else resp.turtleBody

/-- One character list is an initial segment of another. -/
def chStarts : List Char → List Char → Bool
  | [], _ => true
  | _ :: _, [] => false
  | c :: cs, d :: ds => c = d && chStarts cs ds

/-- Contiguous substring search on character lists. -/
def chSub (sub : List Char) : List Char → Bool
  | [] => chStarts sub []
  | d :: ds => chStarts sub (d :: ds) || chSub sub ds

/-- The first string contains the second as a contiguous substring. -/
def strContains (m sub : String) : Bool := chSub sub.data m.data

theorem chStarts_append (l r : List Char) : chStarts l (l ++ r) = true := by
  induction l with
  | nil => rfl
  | cons c cs ih => simp [chStarts, ih]

theorem chStarts_refl (l : List Char) : chStarts l l = true := by
  simpa using chStarts_append l []

theorem chSub_of_starts {sub l : List Char} (h : chStarts sub l = true) :
    chSub sub l = true := by
  cases l with
  | nil => exact h
  | cons d ds => simp [chSub, h]

theorem chSub_append_left (sub pre l : List Char) (h : chSub sub l = true) :
    chSub sub (pre ++ l) = true := by
  induction pre with
  | nil => exact h
  | cons d ds ih => simp [chSub, ih]

theorem data_append (a b : String) : (a ++ b).data = a.data ++ b.data := by
  cases a; cases b; rfl

/-- The status line is embedded in every request-failed message. -/
theorem fmt_contains_status (op status msg : String) :
    strContains (fmtRequestFailed op status msg) status = true := by
  unfold strContains fmtRequestFailed
  simp only [data_append, List.append_assoc]
  apply chSub_append_left
  apply chSub_append_left
  exact chSub_of_starts (chStarts_append _ _)

/-- Any suffix fragment of the message is embedded in it. -/
theorem fmt_contains_msg (op status msg : String) :
    strContains (fmtRequestFailed op status msg) msg = true := by
  unfold strContains fmtRequestFailed
  simp only [data_append, List.append_assoc]
  apply chSub_append_left
  apply chSub_append_left
  apply chSub_append_left
  apply chSub_append_left
  exact chSub_of_starts (chStarts_refl _)

/-- The raw body is embedded in the message when it trims non-empty. -/
theorem fmt_contains_body (op status b : String) (htrim : trimSpace b ≠ "") :
    strContains (fmtRequestFailed op status (bodyMsg (.ok b))) b = true := by
  have hb : bodyMsg (.ok b) = rb ++ b := by
    show (if trimSpace b ≠ "" then rb ++ b else "") = rb ++ b
    rw [if_pos htrim]
  rw [hb]
  unfold strContains fmtRequestFailed
  simp only [data_append, List.append_assoc]
  apply chSub_append_left
  apply chSub_append_left
  apply chSub_append_left
  apply chSub_append_left
  apply chSub_append_left
  exact chSub_of_starts (chStarts_refl _)

/-- C6 amended: on every non-200 response, Query, Update and Construct fail
with a message embedding the HTTP status line; the raw body text is embedded
when the body was readable and does not trim to the empty string; the fixed
read-failure indicator is embedded when the body was unreadable. A readable
body consisting only of white space is not embedded. -/
theorem error_message_embeds (resp : Response) (h200 : resp.statusCode ≠ 200) :
    (∃ m, Query resp = .error m ∧ strContains m resp.status = true ∧
      (∀ b, resp.body = .ok b → trimSpace b ≠ "" → strContains m b = true) ∧
      (∀ u, resp.body = .error u → strContains m readFailMsg = true)) ∧
    (∃ m, Update resp = .error m ∧ strContains m resp.status = true ∧
      (∀ b, resp.body = .ok b → trimSpace b ≠ "" → strContains m b = true) ∧
      (∀ u, resp.body = .error u → strContains m readFailMsg = true)) ∧
    (∃ m, Construct resp = .error m ∧ strContains m resp.status = true ∧
      (∀ b, resp.body = .ok b → trimSpace b ≠ "" → strContains m b = true) ∧
      (∀ u, resp.body = .error u → strContains m readFailMsg = true)) := by
  have hbody : ∀ op, (∀ b, resp.body = .ok b → trimSpace b ≠ "" →
      strContains (fmtRequestFailed op resp.status (bodyMsg resp.body)) b = true) ∧
      (∀ u, resp.body = .error u →
        strContains (fmtRequestFailed op resp.status (bodyMsg resp.body)) readFailMsg = true) := by
    intro op
    constructor
    · intro b hb htrim
      rw [hb]
      exact fmt_contains_body op resp.status b htrim
    · intro u hu
      rw [hu]
      exact fmt_contains_msg op resp.status readFailMsg
  refine ⟨⟨_, ?_, fmt_contains_status _ _ _, (hbody "Query").1, (hbody "Query").2⟩,
    ⟨_, ?_, fmt_contains_status _ _ _, (hbody "Query").1, (hbody "Query").2⟩,
    ⟨_, ?_, fmt_contains_status _ _ _, (hbody "Construct").1, (hbody "Construct").2⟩⟩
  · simp [Query, h200]
  · simp [Update, h200]
  · simp [Construct, h200]

/-- Concrete non-200 response whose readable body is a single tab. -/
def wsResp : Response :=
  ⟨500, "500 Internal Server Error", .ok "\t", none, .ok []⟩

/-- C6 counterexample: a non-empty readable whitespace-only body is not
embedded in the error message, since repo.go drops bodies that trim to the
empty string. -/
theorem error_message_claim_cex :
    wsResp.statusCode ≠ 200 ∧ wsResp.body = .ok "\t" ∧ "\t" ≠ "" ∧
    Query wsResp
      = .error "Query: SPARQL request failed: 500 Internal Server Error. " ∧
    strContains "Query: SPARQL request failed: 500 Internal Server Error. " "\t"
      = false :=
  ⟨by decide, rfl, by decide, rfl, by decide⟩

/-- Concrete failing response carrying a substantive body. -/
def errResp : Response :=
  ⟨500, "500 Internal Server Error", .ok "Internal error", none, .ok []⟩

/-- Witness for the amended C6 on a concrete 500 response with body text. -/
theorem error_message_embeds_witness :
    (∃ m, Query errResp = .error m ∧ strContains m errResp.status = true ∧
      (∀ b, errResp.body = .ok b → trimSpace b ≠ "" → strContains m b = true) ∧
      (∀ u, errResp.body = .error u → strContains m readFailMsg = true)) ∧
    (∃ m, Update errResp = .error m ∧ strContains m errResp.status = true ∧
      (∀ b, errResp.body = .ok b → trimSpace b ≠ "" → strContains m b = true) ∧
      (∀ u, errResp.body = .error u → strContains m readFailMsg = true)) ∧
    (∃ m, Construct errResp = .error m ∧ strContains m errResp.status = true ∧
      (∀ b, errResp.body = .ok b → trimSpace b ≠ "" → strContains m b = true) ∧
      (∀ u, errResp.body = .error u → strContains m readFailMsg = true)) :=
  error_message_embeds errResp (by decide)

/-- Struct `Repo` of repo.go, with the two HTTP client fields the provided
options touch: the timeout duration and the digest-auth transport
credentials (none for the default transport). -/
structure Repo where
  endpoint : String
  timeout : Nat
  transport : Option (String × String)
deriving Repr, DecidableEq

/-- A functional option `func(*Repo) error` of repo.go, in state-passing
form: the updated repository plus an error message on failure. -/
abbrev RepoOption := Repo → Repo × Option String

/-- Method `SetOption` of repo.go in state-passing form: apply the options in
order, stopping at the first error, and return the resulting repository with
the first error if any. -/
def SetOption : Repo → List RepoOption → Repo × Option String
  | r, [] => (r, none)
  | r, opt :: rest =>
      match opt r with
      | (r', some e) => (r', some e)
      | (r', none) => SetOption r' rest

/-- The repository literal built by NewRepo before applying options: the
given endpoint and the default HTTP client. -/
def defaultRepo (addr : String) : Repo := ⟨addr, 0, none⟩

/-- Function `NewRepo` of repo.go: build the default repository and apply
the variadic options via SetOption. -/
def NewRepo (addr : String) (options : List RepoOption) : Repo × Option String :=
  SetOption (defaultRepo addr) options

/-- Option `Timeout` of repo.go: set the client timeout; never fails. -/
def Timeout (t : Nat) : RepoOption := fun r => ({r with timeout := t}, none)

/-- Option `DigestAuth` of repo.go: install the digest transport with the
given credentials; never fails. -/
def DigestAuth (username password : String) : RepoOption :=
  fun r => ({r with transport := some (username, password)}, none)

/-- SetOption splits along list concatenation at the first error. -/
theorem SetOption_append (l1 l2 : List RepoOption) :
    ∀ r, SetOption r (l1 ++ l2)
      = match SetOption r l1 with
        | (r', none) => SetOption r' l2
        | (r', some e) => (r', some e) := by
  induction l1 with
  | nil => intro r; rfl
  | cons opt rest ih =>
    intro r
    simp only [List.cons_append, SetOption]
    cases hopt : opt r with
    | mk r' e =>
      cases e with
      | none =>
        simp only [hopt]
        exact ih r'
      | some msg =>
        simp only [hopt]

/-- C7: NewRepo applies the options in order; if some option fails then the
run stops at the first failing option, returns its error, and never applies
the options after it, the result being that of the prefix plus the failing
option alone; if every option succeeds, NewRepo reports no error. -/
theorem newRepo_options_fail_fast :
    (∀ (addr : String) (pre : List RepoOption) (opt : RepoOption)
        (post : List RepoOption) (r' : Repo) (e : String),
      SetOption (defaultRepo addr) pre = (r', none) →
      (opt r').2 = some e →
      NewRepo addr (pre ++ opt :: post) = ((opt r').1, some e)) ∧
    (∀ (addr : String) (options : List RepoOption),
      (∀ o ∈ options, ∀ s, (o s).2 = none) →
      (NewRepo addr options).2 = none) := by
  constructor
  · intro addr pre opt post r' e hpre hfail
    unfold NewRepo
    rw [SetOption_append, hpre]
    show SetOption r' (opt :: post) = ((opt r').1, some e)
    cases hopt : opt r' with
    | mk r'' e' =>
      rw [hopt] at hfail
      simp only at hfail
      subst hfail
      show SetOption r' (opt :: post) = (r'', some e)
      unfold SetOption
      rw [hopt]
  · intro addr options hok
    unfold NewRepo
    generalize defaultRepo addr = r
    induction options generalizing r with
    | nil => rfl
    | cons opt rest ih =>
      unfold SetOption
      cases hopt : opt r with
      | mk r' e =>
        have hnone := hok opt (List.mem_cons_self _ _) r
        rw [hopt] at hnone
        simp only at hnone
        subst hnone
        show (SetOption r' rest).2 = none
        exact ih (fun o ho s => hok o (List.mem_cons_of_mem _ ho) s) r'

/-- A deliberately failing option used by the C7 witness. -/
def failOpt : RepoOption := fun r => (r, some "boom")

/-- Witness for C7: a concrete option list with one failing option in the
middle, and a concrete all-success list. -/
theorem newRepo_options_fail_fast_witness :
    NewRepo "http://example.org/sparql" [Timeout 5, failOpt, DigestAuth "u" "p"]
      = (⟨"http://example.org/sparql", 5, none⟩, some "boom") ∧
    (NewRepo "http://example.org/sparql" [Timeout 5, DigestAuth "u" "p"]).2 = none :=
  ⟨newRepo_options_fail_fast.1 "http://example.org/sparql" [Timeout 5] failOpt
      [DigestAuth "u" "p"] ⟨"http://example.org/sparql", 5, none⟩ "boom" rfl rfl,
   newRepo_options_fail_fast.2 "http://example.org/sparql"
      [Timeout 5, DigestAuth "u" "p"] (by
        intro o ho s
        rcases List.mem_cons.mp ho with rfl | ho'
        · rfl
        · rcases List.mem_cons.mp ho' with rfl | ho''
          · rfl
          · cases ho'')⟩

end SparqlSpec
